import Mathlib

set_option maxRecDepth 100000

/-!
Verification of the non-transitive game implementation in src/main.js.

The JavaScript source is shallowly embedded below.  JS values that may be
a string or the undefined value are modelled as Option String (none is the
undefined value).  A JS object used as a string-keyed dictionary is
modelled as an association list built in assignment order; a lookup takes
the latest assignment, and a lookup of an absent key yields none, exactly
as a JS property read yields undefined.  JS coerces the undefined value to
the property key "undefined" when it is used as an object index
(ToPropertyKey), which keyOf models.  The JS Number coercion used by
isNaN(input), input < 1, input > N and input - 1 is modelled exactly on
decimal literals (optional sign, optional fractional part, surrounding
whitespace) by jsNum, which returns a scaled integer pair (m, d) denoting
m / 10 ^ d; exotic numeric forms (hexadecimal, exponent, Infinity) and
double rounding of very long literals are outside the model.  String
lengths model JS .length (UTF-16 units) as character counts, which agrees
on ASCII data.
-/

namespace MainJs

/-- JS Array.prototype.join: fields joined by the separator, the empty
array joining to the empty string. -/
def joinSep (sep : String) : List String → String
  | [] => ""
  | [a] => a
  | a :: b :: t => a ++ sep ++ joinSep sep (b :: t)

/-- JS String.prototype.split with a single-character separator, on
character lists: empty fields are kept, and the empty input yields one
empty field, as in JS. -/
def splitOnChar (sep : Char) : List Char → List (List Char)
  | [] => [[]]
  | c :: t =>
    match splitOnChar sep t with
    | [] => [[]]
    | h :: r => if c = sep then [] :: h :: r else (c :: h) :: r

/-- Whitespace trimming on character lists, used by the Number coercion. -/
def trimChars (cs : List Char) : List Char :=
  ((cs.dropWhile Char.isWhitespace).reverse.dropWhile Char.isWhitespace).reverse

/-- Decimal digit-string value, most significant digit first. -/
def digitsToNat (cs : List Char) : Nat :=
  cs.foldl (fun a c => a * 10 + (c.toNat - 48)) 0

/-- JS String.prototype.toLowerCase restricted to ASCII, per character. -/
def jsCharToLower (c : Char) : Char :=
  if 'A' ≤ c ∧ c ≤ 'Z' then Char.ofNat (c.toNat + 32) else c

/-- JS String.prototype.toLowerCase restricted to ASCII. -/
def jsToLower (s : String) : String :=
  String.mk (s.data.map jsCharToLower)

/-- JS Number coercion of a string, modelled exactly on decimal literals.
The result some (m, d) denotes the rational m / 10 ^ d; none is NaN.
The empty (or all-whitespace) string coerces to 0, as in JS. -/
def jsNum (s : String) : Option (Int × Nat) :=
  let t := trimChars s.data
  if t = [] then some (0, 0)
  else
    let signBody : Int × List Char :=
      match t with
      | '-' :: r => (-1, r)
      | '+' :: r => (1, r)
      | _ => (1, t)
    match splitOnChar '.' signBody.2 with
    | [ip] =>
        if ip ≠ [] ∧ ip.all Char.isDigit then
          some (signBody.1 * digitsToNat ip, 0)
        else none
    | [ip, fp] =>
        if (ip ≠ [] ∨ fp ≠ []) ∧ ip.all Char.isDigit ∧ fp.all Char.isDigit then
          some (signBody.1 * digitsToNat (ip ++ fp), fp.length)
        else none
    | _ => none

/-- Lookup in a JS object modelled as an association list whose head is
the most recent assignment; an absent key reads as undefined (none). -/
def objLookup (k : String) : List (String × String) → Option String
  | [] => none
  | (a, v) :: t => if k = a then some v else objLookup k t

/-- JS ToPropertyKey on a string-or-undefined value: the undefined value
indexes an object at the literal key "undefined". -/
def keyOf : Option String → String
  | some s => s
  | none => "undefined"

/-- JS template-literal rendering of a string-or-undefined value. -/
def jsStr : Option String → String
  | some s => s
  | none => "undefined"

/-- GameLogic.generateResults (src/main.js lines 141-148): the assignments
results[moves[i]] = moves[(i + 1) % moves.length] for i = 0 .. N-1, kept
in assignment order. -/
def resultsPairs (moves : List String) : List (String × String) :=
  (List.range moves.length).map fun i =>
    (moves.getD i "", moves.getD ((i + 1) % moves.length) "")

/-- Read of this.results[k] on the object built by generateResults: the
latest assignment to k wins, an absent key reads as undefined. -/
def results (moves : List String) (k : String) : Option String :=
  objLookup k (resultsPairs moves).reverse

/-- GameLogic.determineWinner (src/main.js lines 150-158), on
string-or-undefined arguments exactly as JS evaluates it: strict equality
on string-or-undefined values is Option equality, and an object read
coerces an undefined index to the key "undefined". -/
def determineWinner (moves : List String) (playerMove computerMove : Option String) : String :=
  if results moves (keyOf computerMove) = playerMove then "Win!"
  else if results moves (keyOf playerMove) = computerMove then "Lose!"
  else "Draw!"

/-- Iterated application of the beats mapping (the results object), with
the undefined value propagated. -/
def iterBeats (moves : List String) : Nat → Option String → Option String
  | 0, m => m
  | k + 1, m => iterBeats moves k (m.bind (results moves))

/-- A move set the constructor accepts: pairwise distinct tokens, at
least three of them, in odd count. -/
def validMoveSet (moves : List String) : Prop :=
  moves.Nodup ∧ 3 ≤ moves.length ∧ moves.length % 2 = 1

instance (moves : List String) : Decidable (validMoveSet moves) := by
  unfold validMoveSet; infer_instance

/-- ResultsTable.generateTable (src/main.js lines 36-46): a header row of
the literal " User/Computer" followed by the move names, then one row per
move holding the move name and the outcome against every column move. -/
def generateTable (moves : List String) : List (List String) :=
  (" User/Computer" :: moves) ::
    moves.map fun mi =>
      mi :: moves.map fun mj => determineWinner moves (some mi) (some mj)

/-- The colWidths array of ResultsTable.formatTable: for each column of
the header row, the greatest cell length in that column over all rows. -/
def tableColWidths (table : List (List String)) : List Nat :=
  (List.range (table.getD 0 []).length).map fun c =>
    (table.map fun row => (row.getD c "").length).foldl max 0

/-- The separator of ResultsTable.formatTable: per-column dash runs
joined by the literal "-+-". -/
def separatorLine (widths : List Nat) : String :=
  joinSep "-+-" (widths.map fun w => String.mk (List.replicate w '-'))

/-- JS String.prototype.padEnd with the space pad character. -/
def padEnd (s : String) (w : Nat) : String :=
  s ++ String.mk (List.replicate (w - s.length) ' ')

/-- One row of ResultsTable.formatTable: cells padded to the column
widths and joined by the literal " | ". -/
def formattedRow (widths : List Nat) (row : List String) : String :=
  joinSep " | " (row.enum.map fun p => padEnd p.2 (widths.getD p.1 0))

/-- ResultsTable.formatTable (src/main.js lines 48-62). -/
def formatTable (moves : List String) : String :=
  let table := generateTable moves
  let widths := tableColWidths table
  let sep := separatorLine widths
  let fRows := table.map (formattedRow widths)
  String.join (fRows.enum.map fun p =>
    (if p.1 = 1 then sep ++ "\n" else "") ++ p.2 ++ "\n") ++ sep

/-- The five lines of NonTransitiveGame.displayHelp (src/main.js lines
88-94), last line carrying its trailing newline from the source literal. -/
def displayHelpLines : List String :=
  ["\x1b[36mInstructions:\x1b[0m",
   "This table shows the results for the user.",
   "To find out who wins, locate your move in the \"User\" column,",
   "then go to the corresponding row and column to see the result.",
   "Type \"?\" or \"help\" as a move to see the game results table.\n"]

/-- Everything NonTransitiveGame.play writes before the player has typed
anything: the available-moves block, the question prompt, and the help
block that line 131 prints right after the question is registered.  Note
that this output is a function of the move list alone: neither the
commitment tag nor the key can occur in it. -/
def preInputLines (moves : List String) : List String :=
  ["Available moves:", "? - Show game results"]
    ++ (moves.enum.map fun p => s!"{p.1 + 1} - {p.2}")
    ++ ["0 - Exit", "Enter your move: "]
    ++ displayHelpLines

/-- What happens after the question callback of play returns: the process
exits with status 0 on the exit token, ends normally (the interface is
closed, the event loop drains, status 0) on every other path the code
has, or aborts with a TypeError when crypto rejects an undefined HMAC
input.  The reprompt alternative is the behaviour the specification asks
for on help and on invalid input; the code never produces it, and it is
listed so that the claimed contract can be stated and refuted. -/
inductive Next where
  | exitZero
  | halt
  | typeError
  | reprompt
deriving DecidableEq, Repr

/-- Header line printed before the results table in the help branch. -/
def gameResultsHeader : String :=
  "\n\x1b[36mGame Results (from the user\x27s perspective):\x1b[0m"

/-- The invalid-selection message of src/main.js line 118. -/
def invalidInputLine : String :=
  "Invalid input. Please enter a valid move."

/-- The question callback of NonTransitiveGame.play (src/main.js lines
109-130) as a function of the round state and the typed input, returning
the lines it prints and what the process does next.  hmac is the keyed
digest with the round key already applied; crypto throws a TypeError when
hmac.update receives the undefined value, so the branch with an undefined
player move (a fractional in-range selection) aborts after four lines,
before determineWinner is ever reached. -/
def roundCallback (moves : List String) (computerMove key : String)
    (hmac : String → String) (input : String) : List String × Next :=
  if input = "0" then ([], .exitZero)
  else if jsToLower input = "?" ∨ jsToLower input = "help" then
    (displayHelpLines ++ [gameResultsHeader, formatTable moves], .halt)
  else
    match jsNum input with
    | none => ([invalidInputLine], .halt)
    | some n =>
      let pow : Int := 10 ^ n.2
      if n.1 < pow ∨ (moves.length : Int) * pow < n.1 then ([invalidInputLine], .halt)
      else
        let pm : Option String :=
          if n.1 % pow = 0 then moves.get? ((n.1 / pow).toNat - 1) else none
        let revealed :=
          [s!"Your move: {jsStr pm}",
           s!"Computer\x27s HMAC move: {hmac computerMove}",
           s!"Enter HMAC key: {key}",
           s!"Computer\x27s move: {computerMove}"]
        match pm with
        | some s =>
            (revealed ++ [s!"Your HMAC move: {hmac s}",
              determineWinner moves (some s) (some computerMove)], .halt)
        | none => (revealed, .typeError)

/-- The NonTransitiveGame constructor validation (src/main.js lines
66-78): the duplicate check via the Set cardinality runs first, then the
cardinality and parity check; each failure prints its message and exits
with status 1 before the move generator, the game logic, the table, the
random pick or the HMAC commitment is created. -/
def gameConstructor (moves : List String) : Except (String × Nat) (List String) :=
  if moves.dedup.length ≠ moves.length then
    .error ("Error: Duplicate moves detected. Please enter distinct moves.", 1)
  else if moves.length < 3 ∨ moves.length % 2 ≠ 1 then
    .error ("Invalid input. Please enter an odd number of at least three moves.", 1)
  else .ok moves

/-- The top-level flow (src/main.js lines 166-173): the typed line is
split on single spaces, the constructor validates, and on success play
emits its pre-input output and waits for the move selection. -/
def runMain (inputLine : String) : (String × Nat) ⊕ List String :=
  match gameConstructor ((splitOnChar ' ' inputLine.data).map String.mk) with
  | .error e => .inl e
  | .ok ms => .inr (preInputLines ms)

/-! Lemmas about the association-list object model. -/

theorem objLookup_eq_none_of_not_mem (k : String) (l : List (String × String))
    (h : k ∉ l.map Prod.fst) : objLookup k l = none := by
  induction l with
  | nil => rfl
  | cons p t ih =>
    obtain ⟨a, v⟩ := p
    simp only [List.map_cons, List.mem_cons] at h
    push_neg at h
    simp [objLookup, h.1, ih h.2]

theorem objLookup_mem (k v : String) (l : List (String × String))
    (h : objLookup k l = some v) : (k, v) ∈ l := by
  induction l with
  | nil => simp [objLookup] at h
  | cons p t ih =>
    obtain ⟨a, w⟩ := p
    by_cases hk : k = a
    · subst hk
      simp only [objLookup, if_true, Option.some.injEq] at h
      subst h
      exact List.mem_cons_self _ _
    · simp only [objLookup, if_neg hk] at h
      exact List.mem_cons_of_mem _ (ih h)

theorem objLookup_of_mem_nodupKeys (k v : String) (l : List (String × String))
    (hn : (l.map Prod.fst).Nodup) (hm : (k, v) ∈ l) : objLookup k l = some v := by
  induction l with
  | nil => simp at hm
  | cons p t ih =>
    obtain ⟨a, w⟩ := p
    simp only [List.map_cons, List.nodup_cons] at hn
    rcases List.mem_cons.1 hm with h1 | h2
    · cases h1
      simp [objLookup]
    · have hk : k ≠ a := by
        intro e
        subst e
        exact hn.1 (by simpa using List.mem_map_of_mem Prod.fst h2)
      simp [objLookup, hk, ih hn.2 h2]

theorem objLookup_isSome_of_mem_keys (k : String) (l : List (String × String))
    (h : k ∈ l.map Prod.fst) : ∃ v, objLookup k l = some v := by
  induction l with
  | nil => simp at h
  | cons p t ih =>
    obtain ⟨a, w⟩ := p
    by_cases hk : k = a
    · exact ⟨w, by simp [objLookup, hk]⟩
    · simp only [List.map_cons, List.mem_cons] at h
      rcases h with h | h
      · exact absurd h hk
      · obtain ⟨v, hv⟩ := ih h
        exact ⟨v, by simp [objLookup, hk, hv]⟩

/-! Lemmas about the beats object built by generateResults. -/

theorem map_getD_range {α : Type} (l : List α) (d : α) :
    (List.range l.length).map (fun i => l.getD i d) = l := by
  apply List.ext_getElem
  · simp
  · intro i h1 h2
    simp only [List.getElem_map, List.getElem_range]
    exact List.getD_eq_getElem l d h2

theorem getD_mem {α : Type} (l : List α) (d : α) (i : Nat) (h : i < l.length) :
    l.getD i d ∈ l := by
  rw [List.getD_eq_getElem l d h]
  exact List.getElem_mem h

theorem resultsPairs_map_fst (moves : List String) :
    (resultsPairs moves).map Prod.fst = moves := by
  unfold resultsPairs
  rw [List.map_map]
  exact map_getD_range moves ""

theorem results_getD (moves : List String) (hn : moves.Nodup) (j : Nat)
    (hj : j < moves.length) :
    results moves (moves.getD j "") = some (moves.getD ((j + 1) % moves.length) "") := by
  apply objLookup_of_mem_nodupKeys
  · rw [List.map_reverse, resultsPairs_map_fst]
    exact List.nodup_reverse.2 hn
  · rw [List.mem_reverse]
    exact List.mem_map.2 ⟨j, List.mem_range.2 hj, rfl⟩

theorem results_eq_none (moves : List String) (m : String) (hm : m ∉ moves) :
    results moves m = none := by
  apply objLookup_eq_none_of_not_mem
  rw [List.map_reverse, resultsPairs_map_fst, List.mem_reverse]
  exact hm

theorem results_val_mem (moves : List String) (k v : String)
    (h : results moves k = some v) : v ∈ moves := by
  have hmem := objLookup_mem _ _ _ h
  rw [List.mem_reverse] at hmem
  unfold resultsPairs at hmem
  obtain ⟨i, hi, he⟩ := List.mem_map.1 hmem
  have hN : 0 < moves.length := by
    have := List.mem_range.1 hi
    omega
  cases he
  exact getD_mem _ _ _ (Nat.mod_lt _ hN)

theorem results_isSome_of_mem (moves : List String) (m : String) (hm : m ∈ moves) :
    ∃ v, results moves m = some v := by
  apply objLookup_isSome_of_mem_keys
  rw [List.map_reverse, resultsPairs_map_fst, List.mem_reverse]
  exact hm

/-! Modular index arithmetic for the cyclic beats structure. -/

theorem dvd_of_add_mod_eq (N j k : Nat) (hj : j < N) (h : (j + k) % N = j) : N ∣ k := by
  have h2 : (j + k) % N = j % N := by rw [h, Nat.mod_eq_of_lt hj]
  have h3 := (Nat.modEq_iff_dvd' (Nat.le_add_right j k)).1 h2.symm
  simpa using h3

theorem mod_succ_ne_both (N i j : Nat) (h3 : 3 ≤ N) (hj : j < N)
    (h1 : (j + 1) % N = i) (h2 : (i + 1) % N = j) : False := by
  have key : (j + 2) % N = j := by
    have e : j + 2 = (j + 1) + 1 := rfl
    rw [e, ← Nat.mod_add_mod, h1, h2]
  have hdvd : N ∣ 2 := dvd_of_add_mod_eq N j 2 hj key
  have := Nat.le_of_dvd (by norm_num) hdvd
  omega

theorem succ_mod_inj (N i j : Nat) (hi : i < N) (hj : j < N)
    (h : (i + 1) % N = (j + 1) % N) : i = j := by
  have h2 : i % N = j % N := Nat.ModEq.add_right_cancel' 1 h
  rwa [Nat.mod_eq_of_lt hi, Nat.mod_eq_of_lt hj] at h2

theorem nodup_getD_inj (moves : List String) (hn : moves.Nodup) (i j : Nat)
    (hi : i < moves.length) (hj : j < moves.length)
    (h : moves.getD i "" = moves.getD j "") : i = j := by
  rw [List.getD_eq_getElem _ _ hi, List.getD_eq_getElem _ _ hj] at h
  exact hn.getElem_inj_iff.1 h

/-! Characterization of determineWinner on members of a distinct move set. -/

theorem beats_asymm (moves : List String) (hv : validMoveSet moves) (a b : String)
    (ha : a ∈ moves) (hb : b ∈ moves)
    (h1 : results moves b = some a) (h2 : results moves a = some b) : False := by
  obtain ⟨hn, h3, _⟩ := hv
  obtain ⟨i, hi, hia⟩ := List.mem_iff_getElem.1 ha
  obtain ⟨j, hj, hjb⟩ := List.mem_iff_getElem.1 hb
  have hga : moves.getD i "" = a := by rw [List.getD_eq_getElem _ _ hi]; exact hia
  have hgb : moves.getD j "" = b := by rw [List.getD_eq_getElem _ _ hj]; exact hjb
  have r1 := results_getD moves hn j hj
  have r2 := results_getD moves hn i hi
  rw [hgb, h1] at r1
  rw [hga, h2] at r2
  have e1 : (j + 1) % moves.length = i := by
    apply nodup_getD_inj moves hn _ _ (Nat.mod_lt _ (by omega)) hi
    rw [← hga] at r1
    exact (Option.some.injEq _ _ ▸ r1.symm :)
  have e2 : (i + 1) % moves.length = j := by
    apply nodup_getD_inj moves hn _ _ (Nat.mod_lt _ (by omega)) hj
    rw [← hgb] at r2
    exact (Option.some.injEq _ _ ▸ r2.symm :)
  exact mod_succ_ne_both moves.length i j h3 hj e1 e2

theorem determineWinner_eq_win_iff (moves : List String) (a b : String) :
    determineWinner moves (some a) (some b) = "Win!" ↔ results moves b = some a := by
  unfold determineWinner keyOf
  by_cases h : results moves b = some a
  · rw [if_pos h]
    exact iff_of_true rfl h
  · rw [if_neg h]
    refine iff_of_false ?_ h
    intro hw
    split at hw
    · exact absurd hw (by decide)
    · exact absurd hw (by decide)

theorem determineWinner_eq_lose_iff (moves : List String) (a b : String) :
    determineWinner moves (some a) (some b) = "Lose!" ↔
      (results moves b ≠ some a ∧ results moves a = some b) := by
  unfold determineWinner keyOf
  by_cases h1 : results moves b = some a
  · rw [if_pos h1]
    refine iff_of_false (by decide) ?_
    intro hw
    exact hw.1 h1
  · rw [if_neg h1]
    by_cases h2 : results moves a = some b
    · rw [if_pos h2]
      exact iff_of_true rfl ⟨h1, h2⟩
    · rw [if_neg h2]
      refine iff_of_false (by decide) ?_
      intro hw
      exact h2 hw.2

theorem determineWinner_eq_draw_iff (moves : List String) (a b : String) :
    determineWinner moves (some a) (some b) = "Draw!" ↔
      (results moves b ≠ some a ∧ results moves a ≠ some b) := by
  unfold determineWinner keyOf
  by_cases h1 : results moves b = some a
  · rw [if_pos h1]
    refine iff_of_false (by decide) ?_
    intro hw
    exact hw.1 h1
  · rw [if_neg h1]
    by_cases h2 : results moves a = some b
    · rw [if_pos h2]
      refine iff_of_false (by decide) ?_
      intro hw
      exact hw.2 h2
    · rw [if_neg h2]
      exact iff_of_true rfl ⟨h1, h2⟩

/-- C1: on every odd move set of at least three distinct moves, for any
two member moves a and b, determineWinner a b is the literal "Win!" when
the beats mapping sends b to a, the literal "Lose!" when it sends a to b,
and the literal "Draw!" otherwise, all from the perspective of the first
argument. -/
theorem determineWinner_matches_beats_rule (moves : List String) (hv : validMoveSet moves)
    (a b : String) (ha : a ∈ moves) (hb : b ∈ moves) :
    (determineWinner moves (some a) (some b) = "Win!" ↔ results moves b = some a) ∧
    (determineWinner moves (some a) (some b) = "Lose!" ↔ results moves a = some b) ∧
    (determineWinner moves (some a) (some b) = "Draw!" ↔
      (results moves b ≠ some a ∧ results moves a ≠ some b)) := by
  refine ⟨determineWinner_eq_win_iff moves a b, ?_, determineWinner_eq_draw_iff moves a b⟩
  rw [determineWinner_eq_lose_iff]
  constructor
  · intro h; exact h.2
  · intro h
    refine ⟨?_, h⟩
    intro h1
    exact beats_asymm moves hv a b ha hb h1 h

/-- C1 witness: the rule evaluated on the classic rock-paper-scissors set. -/
theorem determineWinner_matches_beats_rule_witness :
    determineWinner ["rock", "paper", "scissors"] (some "rock") (some "scissors") = "Win!" :=
  (determineWinner_matches_beats_rule ["rock", "paper", "scissors"] (by decide)
    "rock" "scissors" (by decide) (by decide)).1.2 (by decide)

theorem results_getD_eq_some_iff (moves : List String) (hn : moves.Nodup) (i j : Nat)
    (hi : i < moves.length) (hj : j < moves.length) :
    results moves (moves.getD j "") = some (moves.getD i "") ↔
      (j + 1) % moves.length = i := by
  have hN : 0 < moves.length := by omega
  rw [results_getD moves hn j hj]
  constructor
  · intro h
    exact nodup_getD_inj moves hn _ _ (Nat.mod_lt _ hN) hi (Option.some.inj h)
  · intro h
    rw [h]

/-- C3 counterexample: on the five-move set a b c d e the pair (a, c) is
distinct yet draws in both directions, so none of the three alternatives
of the claim holds and the claimed exactly-one trichotomy is false. -/
theorem distinct_pair_double_draw :
    validMoveSet ["a", "b", "c", "d", "e"] ∧
    determineWinner ["a", "b", "c", "d", "e"] (some "a") (some "c") = "Draw!" ∧
    determineWinner ["a", "b", "c", "d", "e"] (some "c") (some "a") = "Draw!" ∧
    ("a" : String) ≠ "c" :=
  ⟨by decide, by decide, by decide, by decide⟩

/-- C3 amended: on every odd move set of at least three distinct moves,
at most one of determineWinner a b and determineWinner b a is "Win!",
the diagonal is always "Draw!", and off the diagonal a "Win!" cell
corresponds exactly to a "Lose!" cell at the transposed position; two
distinct moves that are not cyclic neighbours draw in both directions,
so the original exactly-one trichotomy does not hold. -/
theorem matrix_transpose_inversion (moves : List String) (hv : validMoveSet moves) :
    (∀ a ∈ moves, ∀ b ∈ moves,
      ¬(determineWinner moves (some a) (some b) = "Win!" ∧
        determineWinner moves (some b) (some a) = "Win!")) ∧
    (∀ a ∈ moves, determineWinner moves (some a) (some a) = "Draw!") ∧
    (∀ i j, i < moves.length → j < moves.length → i ≠ j →
      (determineWinner moves (some (moves.getD i "")) (some (moves.getD j "")) = "Win!" ↔
       determineWinner moves (some (moves.getD j "")) (some (moves.getD i "")) = "Lose!")) := by
  have hN : 0 < moves.length := by have := hv.2.1; omega
  refine ⟨?_, ?_, ?_⟩
  · intro a ha b hb hw
    exact beats_asymm moves hv a b ha hb
      ((determineWinner_eq_win_iff moves a b).1 hw.1)
      ((determineWinner_eq_win_iff moves b a).1 hw.2)
  · intro a ha
    obtain ⟨i, hi, hia⟩ := List.mem_iff_getElem.1 ha
    have hga : moves.getD i "" = a := by
      rw [List.getD_eq_getElem _ _ hi]
      exact hia
    rw [determineWinner_eq_draw_iff]
    have key : results moves a ≠ some a := by
      rw [← hga, results_getD moves hv.1 i hi]
      intro h
      have heq := nodup_getD_inj moves hv.1 _ _ (Nat.mod_lt _ hN) hi (Option.some.inj h)
      have hdvd := dvd_of_add_mod_eq moves.length i 1 hi heq
      have := Nat.le_of_dvd one_pos hdvd
      have := hv.2.1
      omega
    exact ⟨key, key⟩
  · intro i j hi hj hne
    rw [determineWinner_eq_win_iff, determineWinner_eq_lose_iff,
        results_getD_eq_some_iff moves hv.1 i j hi hj, ne_eq,
        results_getD_eq_some_iff moves hv.1 j i hj hi]
    constructor
    · intro h
      refine ⟨?_, h⟩
      intro h2
      exact mod_succ_ne_both moves.length i j hv.2.1 hj h h2
    · intro h
      exact h.2

/-- C3 amended witness: the transposed-cell correspondence evaluated on
the five-move set at the off-diagonal pair of indices 1 and 0. -/
theorem matrix_transpose_inversion_witness :
    determineWinner ["a", "b", "c", "d", "e"] (some "b") (some "a") = "Win!" ↔
    determineWinner ["a", "b", "c", "d", "e"] (some "a") (some "b") = "Lose!" :=
  (matrix_transpose_inversion ["a", "b", "c", "d", "e"] (by decide)).2.2 1 0
    (by decide) (by decide) (by decide)

/-! The cyclic structure of the beats mapping. -/

theorem iterBeats_getD (moves : List String) (hn : moves.Nodup) :
    ∀ (k j : Nat), j < moves.length →
      iterBeats moves k (some (moves.getD j "")) =
        some (moves.getD ((j + k) % moves.length) "") := by
  intro k
  induction k with
  | zero =>
    intro j hj
    simp [iterBeats, Nat.mod_eq_of_lt hj]
  | succ k ih =>
    intro j hj
    have hN : 0 < moves.length := by omega
    have hb : (j + 1) % moves.length < moves.length := Nat.mod_lt _ hN
    have step : iterBeats moves (k + 1) (some (moves.getD j "")) =
        iterBeats moves k (results moves (moves.getD j "")) := rfl
    rw [step, results_getD moves hn j hj, ih _ hb]
    have e : ((j + 1) % moves.length + k) % moves.length =
        (j + (k + 1)) % moves.length := by
      rw [Nat.mod_add_mod]
      congr 1
      omega
    rw [e]

/-- C4: on every odd move set of at least three distinct moves, the
beats mapping built by generateResults sends the move at index i to the
move at index (i + 1) mod N, is injective and surjective on the move
set, and forms a single N-cycle: N iterations return every move to
itself and no positive number of iterations below N does. -/
theorem beats_cycle_structure (moves : List String) (hv : validMoveSet moves) :
    (∀ i, i < moves.length →
      results moves (moves.getD i "") = some (moves.getD ((i + 1) % moves.length) "")) ∧
    (∀ a ∈ moves, ∀ b ∈ moves, results moves a = results moves b → a = b) ∧
    (∀ b ∈ moves, ∃ a, a ∈ moves ∧ results moves a = some b) ∧
    (∀ m ∈ moves, iterBeats moves moves.length (some m) = some m) ∧
    (∀ m ∈ moves, ∀ k, 0 < k → k < moves.length →
      iterBeats moves k (some m) ≠ some m) := by
  obtain ⟨hn, h3, hodd⟩ := hv
  have hN : 0 < moves.length := by omega
  refine ⟨?_, ?_, ?_, ?_, ?_⟩
  · intro i hi
    exact results_getD moves hn i hi
  · intro a ha b hb heq
    obtain ⟨i, hi, hia⟩ := List.mem_iff_getElem.1 ha
    obtain ⟨j, hj, hjb⟩ := List.mem_iff_getElem.1 hb
    have hga : moves.getD i "" = a := by
      rw [List.getD_eq_getElem _ _ hi]
      exact hia
    have hgb : moves.getD j "" = b := by
      rw [List.getD_eq_getElem _ _ hj]
      exact hjb
    rw [← hga, ← hgb, results_getD moves hn i hi, results_getD moves hn j hj] at heq
    have hmod := nodup_getD_inj moves hn _ _ (Nat.mod_lt _ hN) (Nat.mod_lt _ hN)
      (Option.some.inj heq)
    have hij : i = j := succ_mod_inj _ _ _ hi hj hmod
    rw [← hga, ← hgb, hij]
  · intro b hb
    obtain ⟨j, hj, hjb⟩ := List.mem_iff_getElem.1 hb
    have hgb : moves.getD j "" = b := by
      rw [List.getD_eq_getElem _ _ hj]
      exact hjb
    refine ⟨moves.getD ((j + moves.length - 1) % moves.length) "",
      getD_mem _ _ _ (Nat.mod_lt _ hN), ?_⟩
    rw [results_getD moves hn _ (Nat.mod_lt _ hN), Nat.mod_add_mod]
    have harith : (j + moves.length - 1 + 1) % moves.length = j := by
      have e : j + moves.length - 1 + 1 = j + moves.length := by omega
      rw [e, Nat.add_mod_right, Nat.mod_eq_of_lt hj]
    rw [harith, hgb]
  · intro m hm
    obtain ⟨j, hj, hjm⟩ := List.mem_iff_getElem.1 hm
    have hgm : moves.getD j "" = m := by
      rw [List.getD_eq_getElem _ _ hj]
      exact hjm
    rw [← hgm, iterBeats_getD moves hn _ _ hj, Nat.add_mod_right, Nat.mod_eq_of_lt hj]
  · intro m hm k hk0 hkN heq
    obtain ⟨j, hj, hjm⟩ := List.mem_iff_getElem.1 hm
    have hgm : moves.getD j "" = m := by
      rw [List.getD_eq_getElem _ _ hj]
      exact hjm
    rw [← hgm, iterBeats_getD moves hn k j hj] at heq
    have hmod := nodup_getD_inj moves hn _ _ (Nat.mod_lt _ hN) hj (Option.some.inj heq)
    have hdvd := dvd_of_add_mod_eq moves.length j k hj hmod
    have := Nat.le_of_dvd hk0 hdvd
    omega

/-- C4 witness: on rock paper scissors, three iterations of beats fix
rock while one iteration moves it. -/
theorem beats_cycle_structure_witness :
    iterBeats ["rock", "paper", "scissors"] 3 (some "rock") = some "rock" ∧
    iterBeats ["rock", "paper", "scissors"] 1 (some "rock") ≠ some "rock" :=
  ⟨(beats_cycle_structure ["rock", "paper", "scissors"] (by decide)).2.2.2.1
      "rock" (by decide),
   (beats_cycle_structure ["rock", "paper", "scissors"] (by decide)).2.2.2.2
      "rock" (by decide) 1 (by decide) (by decide)⟩

/-! Validation of the move-set input. -/

theorem dedup_length_eq_iff (l : List String) : l.dedup.length = l.length ↔ l.Nodup := by
  constructor
  · intro h
    have he : l.dedup = l := l.dedup_sublist.eq_of_length h
    rw [← he]
    exact l.nodup_dedup
  · intro h
    rw [List.dedup_eq_self.2 h]

/-- C5: a move-set input with fewer than three tokens, an even number of
tokens, or a duplicate token makes the constructor print a validation
error and exit with status 1 before any round state (generator, game
logic, table, random pick, commitment) is built, while any odd list of
at least three distinct tokens passes validation and the round starts by
emitting the move menu and prompting for a selection. -/
theorem moveset_validation (moves : List String) :
    ((moves.length < 3 ∨ moves.length % 2 = 0 ∨ ¬ moves.Nodup) →
      ∃ msg, gameConstructor moves = .error (msg, 1)) ∧
    (validMoveSet moves → gameConstructor moves = .ok moves) ∧
    (∀ line : String, validMoveSet ((splitOnChar ' ' line.data).map String.mk) →
      runMain line = .inr (preInputLines ((splitOnChar ' ' line.data).map String.mk))) ∧
    (∀ line : String,
      (((splitOnChar ' ' line.data).map String.mk).length < 3 ∨
        ((splitOnChar ' ' line.data).map String.mk).length % 2 = 0 ∨
        ¬ ((splitOnChar ' ' line.data).map String.mk).Nodup) →
      ∃ msg, runMain line = .inl (msg, 1)) := by
  have herr : ∀ ms : List String, (ms.length < 3 ∨ ms.length % 2 = 0 ∨ ¬ ms.Nodup) →
      ∃ msg, gameConstructor ms = .error (msg, 1) := by
    intro ms h
    by_cases hnd : ms.Nodup
    · have hd : ms.dedup.length = ms.length := (dedup_length_eq_iff ms).2 hnd
      refine ⟨"Invalid input. Please enter an odd number of at least three moves.", ?_⟩
      unfold gameConstructor
      rw [if_neg (by simp [hd]), if_pos ?_]
      rcases h with h | h | h
      · exact Or.inl h
      · exact Or.inr (by omega)
      · exact absurd hnd h
    · refine ⟨"Error: Duplicate moves detected. Please enter distinct moves.", ?_⟩
      unfold gameConstructor
      rw [if_pos ?_]
      intro he
      exact hnd ((dedup_length_eq_iff ms).1 he)
  refine ⟨herr moves, ?_, ?_, ?_⟩
  · intro hv
    obtain ⟨hn, h3, hodd⟩ := hv
    unfold gameConstructor
    rw [if_neg (by simp [(dedup_length_eq_iff moves).2 hn]), if_neg (by omega)]
  · intro line hv
    obtain ⟨hn, h3, hodd⟩ := hv
    have hok : gameConstructor ((splitOnChar ' ' line.data).map String.mk) =
        .ok ((splitOnChar ' ' line.data).map String.mk) := by
      unfold gameConstructor
      rw [if_neg (by simp [(dedup_length_eq_iff _).2 hn]), if_neg (by omega)]
    unfold runMain
    rw [hok]
  · intro line hbad
    obtain ⟨msg, hmsg⟩ := herr _ hbad
    refine ⟨msg, ?_⟩
    unfold runMain
    rw [hmsg]

/-- C5 witness: a two-token line is rejected with exit status 1 before
any round output, and a three-token line starts a round with the
pre-input output. -/
theorem moveset_validation_witness :
    (∃ msg, gameConstructor ["a", "b"] = .error (msg, 1)) ∧
    gameConstructor ["a", "b", "c"] = .ok ["a", "b", "c"] ∧
    runMain "a b c" = .inr (preInputLines ["a", "b", "c"]) ∧
    (∃ msg, runMain "a b" = .inl (msg, 1)) :=
  ⟨(moveset_validation ["a", "b"]).1 (Or.inl (by decide)),
   (moveset_validation ["a", "b", "c"]).2.1 (by decide),
   (moveset_validation ["a", "b", "c"]).2.2.1 "a b c" (by decide),
   (moveset_validation []).2.2.2 "a b" (Or.inl (by decide))⟩

/-- C2 (evaluation of the defect): everything printed before the player
types is the move menu, the prompt and the help text, with no line
carrying the commitment tag, because the pre-input output is a function
of the move list alone; the tag first appears in the post-move reveal
block, after Your move and immediately before the key. -/
theorem commitment_tag_only_after_move :
    preInputLines ["rock", "paper", "scissors"] =
      ["Available moves:", "? - Show game results", "1 - rock", "2 - paper",
       "3 - scissors", "0 - Exit", "Enter your move: ",
       "\x1b[36mInstructions:\x1b[0m",
       "This table shows the results for the user.",
       "To find out who wins, locate your move in the \"User\" column,",
       "then go to the corresponding row and column to see the result.",
       "Type \"?\" or \"help\" as a move to see the game results table.\n"] ∧
    roundCallback ["rock", "paper", "scissors"] "rock" "K" (fun s => "hmac-" ++ s) "2" =
      (["Your move: paper", "Computer\x27s HMAC move: hmac-rock", "Enter HMAC key: K",
        "Computer\x27s move: rock", "Your HMAC move: hmac-paper", "Win!"], Next.halt) :=
  ⟨rfl, rfl⟩

/-- C6 counterexample: an out-of-vocabulary token is reported as invalid
and the callback then ends the process instead of prompting again, so
the round does not continue. -/
theorem invalid_input_no_reprompt :
    roundCallback ["rock", "paper", "scissors"] "rock" "K" (fun s => s) "abc" =
      ([invalidInputLine], Next.halt) ∧ Next.halt ≠ Next.reprompt :=
  ⟨rfl, by decide⟩

/-- C6 amended: a non-numeric (and non-exit, non-help) input, or a
numeric input outside the one-to-N range, prints exactly the invalid
input message and the process then ends normally; the input is not
treated as an exit (no explicit exit call is made) but no further prompt
is issued, so the round ends without an outcome. -/
theorem invalid_input_reported_halts (moves : List String) (computerMove key : String)
    (hmac : String → String) (input : String)
    (h0 : input ≠ "0") (hq : jsToLower input ≠ "?") (hh : jsToLower input ≠ "help")
    (hbad : jsNum input = none ∨ ∃ n, jsNum input = some n ∧
      (n.1 < 10 ^ n.2 ∨ (moves.length : Int) * 10 ^ n.2 < n.1)) :
    roundCallback moves computerMove key hmac input = ([invalidInputLine], Next.halt) ∧
    Next.halt ≠ Next.exitZero := by
  refine ⟨?_, by decide⟩
  unfold roundCallback
  rw [if_neg h0, if_neg (not_or.2 ⟨hq, hh⟩)]
  rcases hbad with hb | ⟨n, hn, hcond⟩
  · rw [hb]
  · rw [hn]
    exact if_pos hcond

/-- C6 amended witness: the out-of-range selection 99 on a three-move
set. -/
theorem invalid_input_reported_halts_witness :
    roundCallback ["a", "b", "c"] "a" "K" (fun s => s) "99" =
      ([invalidInputLine], Next.halt) ∧ Next.halt ≠ Next.exitZero :=
  invalid_input_reported_halts ["a", "b", "c"] "a" "K" (fun s => s) "99"
    (by decide) (by decide) (by decide)
    (Or.inr ⟨(99, 0), by decide, Or.inr (by decide)⟩)

/-- C7 counterexample: after rendering the help text and the table the
callback ends the process, so the player is not re-prompted and no move
selection can follow the help request. -/
theorem help_no_reprompt :
    (roundCallback ["rock", "paper", "scissors"] "rock" "K" (fun s => s) "help").2 =
      Next.halt ∧ Next.halt ≠ Next.reprompt :=
  ⟨rfl, by decide⟩

/-- C7 amended: a help or question-mark token (case-insensitively)
renders the help text and the Results Matrix, and the process then ends
normally without reading a further move; the help request consumes the
round instead of leaving the player in the awaiting-move state. -/
theorem help_renders_table_halts (moves : List String) (computerMove key : String)
    (hmac : String → String) (input : String)
    (hi : jsToLower input = "?" ∨ jsToLower input = "help") (h0 : input ≠ "0") :
    roundCallback moves computerMove key hmac input =
      (displayHelpLines ++ [gameResultsHeader, formatTable moves], Next.halt) := by
  unfold roundCallback
  rw [if_neg h0, if_pos hi]

/-- C7 amended witness: the question-mark token on a three-move set. -/
theorem help_renders_table_halts_witness :
    roundCallback ["a", "b", "c"] "a" "K" (fun s => s) "?" =
      (displayHelpLines ++ [gameResultsHeader, formatTable ["a", "b", "c"]], Next.halt) :=
  help_renders_table_halts ["a", "b", "c"] "a" "K" (fun s => s) "?"
    (Or.inl (by decide)) (by decide)

/-- C10 counterexample: the in-range non-integer selection 2.5 yields an
undefined player move; the round prints the four reveal lines and then
aborts with a TypeError from the HMAC recomputation, so it does not
resolve to Draw (no outcome line is printed at all). -/
theorem undefined_player_move_type_error :
    roundCallback ["rock", "paper", "scissors"] "rock" "K" (fun s => "hmac-" ++ s) "2.5" =
      (["Your move: undefined", "Computer\x27s HMAC move: hmac-rock", "Enter HMAC key: K",
        "Computer\x27s move: rock"], Next.typeError) ∧
    "Draw!" ∉ ["Your move: undefined", "Computer\x27s HMAC move: hmac-rock",
        "Enter HMAC key: K", "Computer\x27s move: rock"] :=
  ⟨rfl, by decide⟩

/-- C10 amended: determineWinner itself is total on arbitrary
string-or-undefined pairs, always returning one of the three literals,
and returns Draw whenever neither beats condition holds, in particular
whenever the player move is a string outside the move set; but a round
whose selection is numeric, in range and non-integer does not resolve at
all: the undefined player move makes the HMAC recomputation throw a
TypeError after the four reveal lines, before determineWinner runs. -/
theorem determineWinner_totality_amended (moves : List String) :
    (∀ p c : Option String, determineWinner moves p c = "Win!" ∨
      determineWinner moves p c = "Lose!" ∨ determineWinner moves p c = "Draw!") ∧
    (∀ p c : Option String, results moves (keyOf c) ≠ p → results moves (keyOf p) ≠ c →
      determineWinner moves p c = "Draw!") ∧
    (∀ c ∈ moves, ∀ p : String, p ∉ moves →
      determineWinner moves (some p) (some c) = "Draw!") ∧
    (∀ (computerMove key : String) (hmac : String → String) (input : String)
        (n : Int × Nat), jsNum input = some n →
      input ≠ "0" → jsToLower input ≠ "?" → jsToLower input ≠ "help" →
      ¬(n.1 < 10 ^ n.2 ∨ (moves.length : Int) * 10 ^ n.2 < n.1) →
      n.1 % 10 ^ n.2 ≠ 0 →
      roundCallback moves computerMove key hmac input =
        (["Your move: undefined", s!"Computer\x27s HMAC move: {hmac computerMove}",
          s!"Enter HMAC key: {key}", s!"Computer\x27s move: {computerMove}"],
         Next.typeError)) := by
  refine ⟨?_, ?_, ?_, ?_⟩
  · intro p c
    unfold determineWinner
    by_cases h1 : results moves (keyOf c) = p
    · rw [if_pos h1]
      exact Or.inl rfl
    · rw [if_neg h1]
      by_cases h2 : results moves (keyOf p) = c
      · rw [if_pos h2]
        exact Or.inr (Or.inl rfl)
      · rw [if_neg h2]
        exact Or.inr (Or.inr rfl)
  · intro p c h1 h2
    unfold determineWinner
    rw [if_neg h1, if_neg h2]
  · intro c hc p hp
    have h1 : results moves (keyOf (some c)) ≠ some p := by
      intro h
      exact hp (results_val_mem moves c p h)
    have h2 : results moves (keyOf (some p)) ≠ some c := by
      have he : results moves p = none := results_eq_none moves p hp
      show results moves p ≠ some c
      rw [he]
      simp
    unfold determineWinner
    rw [if_neg h1, if_neg h2]
  · intro computerMove key hmac input n hn h0 hq hh hrange hfrac
    unfold roundCallback
    rw [if_neg h0, if_neg (not_or.2 ⟨hq, hh⟩), hn]
    simp only [if_neg hrange, if_neg hfrac]
    rfl

/-- C10 amended witness: a non-member string draws, and the selection
1.5 aborts the round with a TypeError after the reveal lines. -/
theorem determineWinner_totality_amended_witness :
    determineWinner ["a", "b", "c"] (some "z") (some "b") = "Draw!" ∧
    roundCallback ["a", "b", "c"] "b" "K" (fun s => s) "1.5" =
      (["Your move: undefined", "Computer\x27s HMAC move: b", "Enter HMAC key: K",
        "Computer\x27s move: b"], Next.typeError) :=
  ⟨(determineWinner_totality_amended ["a", "b", "c"]).2.2.1 "b" (by decide) "z" (by decide),
   (determineWinner_totality_amended ["a", "b", "c"]).2.2.2 "b" "K" (fun s => s) "1.5"
     (15, 1) (by decide) (by decide) (by decide) (by decide) (by decide) (by decide)⟩

/-- C8: for a valid move set of length N the built table is an
(N+1)-row grid of (N+1)-cell rows whose top-left cell is the literal
" User/Computer" with its leading space, whose first row and first
column carry the move names in order, and whose data cell at row i+1 and
column j+1 is determineWinner of the i-th and j-th moves. -/
theorem getD_map {α β : Type} (f : α → β) (l : List α) (d : β) (dA : α) (i : Nat)
    (h : i < l.length) : (l.map f).getD i d = f (l.getD i dA) := by
  rw [List.getD_eq_getElem _ _ (by simpa using h), List.getElem_map,
    List.getD_eq_getElem _ _ h]

theorem generateTable_cells (moves : List String) (_hv : validMoveSet moves) :
    (generateTable moves).length = moves.length + 1 ∧
    (∀ row ∈ generateTable moves, row.length = moves.length + 1) ∧
    ((generateTable moves).getD 0 []).getD 0 "" = " User/Computer" ∧
    (∀ j, j < moves.length →
      ((generateTable moves).getD 0 []).getD (j + 1) "" = moves.getD j "") ∧
    (∀ i, i < moves.length →
      ((generateTable moves).getD (i + 1) []).getD 0 "" = moves.getD i "") ∧
    (∀ i j, i < moves.length → j < moves.length →
      ((generateTable moves).getD (i + 1) []).getD (j + 1) "" =
        determineWinner moves (some (moves.getD i "")) (some (moves.getD j ""))) := by
  refine ⟨by simp [generateTable], ?_, rfl, ?_, ?_, ?_⟩
  · intro row hrow
    unfold generateTable at hrow
    rcases List.mem_cons.1 hrow with h | h
    · rw [h]
      simp
    · obtain ⟨mi, hmi, he⟩ := List.mem_map.1 h
      rw [← he]
      simp
  · intro j hj
    rfl
  · intro i hi
    have hstep : (generateTable moves).getD (i + 1) [] =
        (moves.map (fun mi =>
          mi :: moves.map fun mj => determineWinner moves (some mi) (some mj))).getD i [] := rfl
    rw [hstep, getD_map _ moves [] "" i hi]
    rfl
  · intro i j hi hj
    have hstep : (generateTable moves).getD (i + 1) [] =
        (moves.map (fun mi =>
          mi :: moves.map fun mj => determineWinner moves (some mi) (some mj))).getD i [] := rfl
    rw [hstep, getD_map _ moves [] "" i hi]
    have hstep2 : ((moves.getD i "" ::
        moves.map fun mj =>
          determineWinner moves (some (moves.getD i "")) (some mj)).getD (j + 1) "") =
        (moves.map fun mj =>
          determineWinner moves (some (moves.getD i "")) (some mj)).getD j "" := rfl
    rw [hstep2, getD_map _ moves "" "" j hj]

/-- C8 witness: the data cell for rock against paper in the three-move
table. -/
theorem generateTable_cells_witness :
    ((generateTable ["rock", "paper", "scissors"]).getD 1 []).getD 2 "" =
      determineWinner ["rock", "paper", "scissors"]
        (some (["rock", "paper", "scissors"].getD 0 ""))
        (some (["rock", "paper", "scissors"].getD 1 "")) :=
  (generateTable_cells ["rock", "paper", "scissors"] (by decide)).2.2.2.2.2 0 1
    (by decide) (by decide)

/-! String-join and maximum lemmas for the table rendering. -/

theorem foldl_append_init (l : List String) (a b : String) :
    l.foldl (fun r s => r ++ s) (a ++ b) = a ++ l.foldl (fun r s => r ++ s) b := by
  induction l generalizing b with
  | nil => rfl
  | cons x t ih =>
    show t.foldl _ ((a ++ b) ++ x) = a ++ t.foldl _ (b ++ x)
    rw [String.append_assoc]
    exact ih (b ++ x)

theorem join_cons (a : String) (l : List String) :
    String.join (a :: l) = a ++ String.join l := by
  show l.foldl _ ("" ++ a) = a ++ l.foldl _ ""
  rw [String.empty_append]
  have h := foldl_append_init l a ""
  rw [String.append_empty] at h
  exact h

theorem joinSep_cons_of_ne_nil (s a : String) (l : List String) (h : l ≠ []) :
    joinSep s (a :: l) = a ++ s ++ joinSep s l := by
  cases l with
  | nil => exact absurd rfl h
  | cons b t => rfl

theorem join_newline_eq (sep : String) (rs : List String) :
    String.join (rs.map fun r => r ++ "\n") ++ sep = joinSep "\n" (rs ++ [sep]) := by
  induction rs with
  | nil =>
    show String.join [] ++ sep = joinSep "\n" [sep]
    rw [show String.join [] = "" from rfl, String.empty_append]
    rfl
  | cons r t ih =>
    rw [List.map_cons, join_cons, List.cons_append,
      joinSep_cons_of_ne_nil _ _ _ (by simp), ← ih]
    simp [String.append_assoc]

theorem enumFrom_map_ge2 (sep : String) : ∀ (rest : List String) (k : Nat), 2 ≤ k →
    (List.enumFrom k rest).map
        (fun p => (if p.1 = 1 then sep ++ "\n" else "") ++ p.2 ++ "\n") =
      rest.map (fun r => r ++ "\n") := by
  intro rest
  induction rest with
  | nil =>
    intro k hk
    rfl
  | cons r t ih =>
    intro k hk
    rw [List.enumFrom_cons, List.map_cons, List.map_cons, ih (k + 1) (by omega)]
    have hne : k ≠ 1 := by omega
    rw [if_neg hne, String.empty_append]

theorem join_enum_structure (sep hd r1 : String) (rest : List String) :
    String.join (((hd :: r1 :: rest).enum).map
        (fun p => (if p.1 = 1 then sep ++ "\n" else "") ++ p.2 ++ "\n")) ++ sep =
      joinSep "\n" (hd :: sep :: r1 :: (rest ++ [sep])) := by
  have e : (hd :: r1 :: rest).enum = (0, hd) :: (1, r1) :: List.enumFrom 2 rest := rfl
  rw [e, List.map_cons, List.map_cons, join_cons, join_cons,
    enumFrom_map_ge2 sep rest 2 (le_refl 2)]
  rw [joinSep_cons_of_ne_nil _ _ _ (by simp), joinSep_cons_of_ne_nil _ _ _ (by simp),
    joinSep_cons_of_ne_nil _ _ _ (by simp), ← join_newline_eq]
  have h0 : (if (0 : Nat) = 1 then sep ++ "\n" else "") = "" := if_neg (by omega)
  have h1 : (if (1 : Nat) = 1 then sep ++ "\n" else "") = sep ++ "\n" := if_pos rfl
  rw [h0, h1, String.empty_append]
  simp [String.append_assoc]

theorem le_foldl_max (l : List Nat) (a : Nat) : a ≤ l.foldl max a := by
  induction l generalizing a with
  | nil => exact le_refl a
  | cons y t ih => exact le_trans (le_max_left a y) (ih (max a y))

theorem foldl_max_le_of_mem :
    ∀ (l : List Nat) (x : Nat), x ∈ l → ∀ a, x ≤ l.foldl max a := by
  intro l
  induction l with
  | nil =>
    intro x hx
    simp at hx
  | cons y t ih =>
    intro x hx a
    rcases List.mem_cons.1 hx with h | h
    · subst h
      exact le_trans (le_max_right a x) (le_foldl_max t (max a x))
    · exact ih x h (max a y)

theorem foldl_max_mem (l : List Nat) : ∀ a, l.foldl max a ∈ a :: l := by
  induction l with
  | nil =>
    intro a
    exact List.mem_cons_self a []
  | cons y t ih =>
    intro a
    have h := ih (max a y)
    show List.foldl max (max a y) t ∈ a :: y :: t
    rcases List.mem_cons.1 h with h2 | h2
    · rcases le_total a y with hle | hle
      · rw [h2, max_eq_right hle]
        exact List.mem_cons_of_mem _ (List.mem_cons_self _ _)
      · rw [h2, max_eq_left hle]
        exact List.mem_cons_self _ _
    · exact List.mem_cons_of_mem _ (List.mem_cons_of_mem _ h2)

theorem padEnd_length (s : String) (w : Nat) :
    (padEnd s w).length = s.length + (w - s.length) := by
  unfold padEnd
  rw [String.length_append]
  show s.length + (List.replicate (w - s.length) ' ').length = _
  rw [List.length_replicate]

theorem generateTable_row_length (moves : List String) :
    ∀ row ∈ generateTable moves, row.length = moves.length + 1 := by
  intro row hrow
  unfold generateTable at hrow
  rcases List.mem_cons.1 hrow with h | h
  · rw [h]
    simp
  · obtain ⟨mi, hmi, he⟩ := List.mem_map.1 h
    rw [← he]
    simp

theorem tableColWidths_length (t : List (List String)) :
    (tableColWidths t).length = (t.getD 0 []).length := by
  simp [tableColWidths]

theorem tableColWidths_getD (t : List (List String)) (c : Nat)
    (hc : c < (t.getD 0 []).length) :
    (tableColWidths t).getD c 0 =
      (t.map fun row => (row.getD c "").length).foldl max 0 := by
  unfold tableColWidths
  rw [List.getD_eq_getElem _ _ (by simpa using hc), List.getElem_map, List.getElem_range]

/-- C9: the rendered table text is the newline-join of the formatted
header row, the horizontal rule, the formatted data rows and a trailing
rule, so the rule sits between the header row and the first data row;
every cell is padded to exactly its column width, and that width is the
greatest cell length of the column over all rows, the header row
included; cells within a row are joined by the padded delimiter in
formattedRow. -/
theorem formatTable_rendering (moves : List String) (hv : validMoveSet moves) :
    (formatTable moves =
      joinSep "\n"
        (formattedRow (tableColWidths (generateTable moves))
            ((generateTable moves).getD 0 []) ::
          separatorLine (tableColWidths (generateTable moves)) ::
          (((generateTable moves).drop 1).map
              (formattedRow (tableColWidths (generateTable moves))) ++
            [separatorLine (tableColWidths (generateTable moves))]))) ∧
    (∀ row ∈ generateTable moves, ∀ c, c < row.length →
      (padEnd (row.getD c "") ((tableColWidths (generateTable moves)).getD c 0)).length =
        (tableColWidths (generateTable moves)).getD c 0) ∧
    (∀ c, c < (tableColWidths (generateTable moves)).length →
      (∀ row ∈ generateTable moves,
        (row.getD c "").length ≤ (tableColWidths (generateTable moves)).getD c 0) ∧
      (∃ row ∈ generateTable moves,
        (row.getD c "").length = (tableColWidths (generateTable moves)).getD c 0)) := by
  refine ⟨?_, ?_, ?_⟩
  · cases moves with
    | nil => exact absurd hv (by decide)
    | cons m0 mtail =>
      exact join_enum_structure _ _ _ _
  · intro row hrow c hc
    have hlen : row.length = moves.length + 1 := generateTable_row_length moves row hrow
    have hhead : ((generateTable moves).getD 0 []).length = moves.length + 1 := by
      show (" User/Computer" :: moves).length = _
      simp
    have hcw : c < ((generateTable moves).getD 0 []).length := by omega
    rw [tableColWidths_getD _ c hcw, padEnd_length]
    have hle : (row.getD c "").length ≤
        ((generateTable moves).map fun r => (r.getD c "").length).foldl max 0 :=
      foldl_max_le_of_mem _ _
        (List.mem_map_of_mem (fun r => (r.getD c "").length) hrow) 0
    omega
  · intro c hc
    have hcw : c < ((generateTable moves).getD 0 []).length := by
      rwa [tableColWidths_length] at hc
    constructor
    · intro row hrow
      rw [tableColWidths_getD _ c hcw]
      exact foldl_max_le_of_mem _ _
        (List.mem_map_of_mem (fun r => (r.getD c "").length) hrow) 0
    · rw [tableColWidths_getD _ c hcw]
      have hmem := foldl_max_mem ((generateTable moves).map fun r => (r.getD c "").length) 0
      rcases List.mem_cons.1 hmem with h0 | hmem2
      · have hhd : (" User/Computer" :: moves) ∈ generateTable moves :=
          List.mem_cons_self _ _
        have hle : (((" User/Computer" :: moves).getD c "")).length ≤
            ((generateTable moves).map fun r => (r.getD c "").length).foldl max 0 :=
          foldl_max_le_of_mem _ _
            (List.mem_map_of_mem (fun r => (r.getD c "").length) hhd) 0
        refine ⟨" User/Computer" :: moves, hhd, ?_⟩
        omega
      · obtain ⟨row, hrow, he⟩ := List.mem_map.1 hmem2
        exact ⟨row, hrow, he⟩

/-- C9 witness: the join structure of the rendered three-move table. -/
theorem formatTable_rendering_witness :
    formatTable ["a", "b", "c"] =
      joinSep "\n"
        (formattedRow (tableColWidths (generateTable ["a", "b", "c"]))
            ((generateTable ["a", "b", "c"]).getD 0 []) ::
          separatorLine (tableColWidths (generateTable ["a", "b", "c"])) ::
          (((generateTable ["a", "b", "c"]).drop 1).map
              (formattedRow (tableColWidths (generateTable ["a", "b", "c"]))) ++
            [separatorLine (tableColWidths (generateTable ["a", "b", "c"]))])) :=
  (formatTable_rendering ["a", "b", "c"] (by decide)).1

end MainJs
